import Mathlib

/-
Verification of the DistanceAwareGradualDomainEnsemble adapter
(src/adapter/dagde.py) against its natural-language specification.

Modelling conventions:
* float tensors are modelled by exact rationals; per-sample rows of the
  ensemble tables Z and z are values of type List Rat, a table is a
  List (List Rat) indexed by sample id;
* student logits, log_softmax and nll_loss are modelled over the reals,
  since they involve exp and log;
* torch.nn.functional.normalize with p = 1 divides a row by
  max (l1-norm of the row) eps, with eps = 1e-12 (the torch default);
* torch.quantile uses linear interpolation between the two nearest order
  statistics;
* the adapter driver (adapt, _adapt_train_eval) is embedded as a
  functional state machine over an abstract model type M; the external
  collaborators (model inference, candidate training, oracle accuracy,
  the momentum scheduler value for the current domain) are parameters
  bundled in a Collab structure, mirroring section 6 of the spec;
* a Python ZeroDivisionError is modelled by an Option result being none.
-/

/-- The eps clamp used by torch.nn.functional.normalize (default 1e-12). -/
def eps : ℚ := 1 / 1000000000000

/-- L1 norm of a row, as used by F.normalize(.., p = 1). -/
def l1norm (v : List ℚ) : ℚ := (v.map (fun x => |x|)).sum

/-- F.normalize(v, p = 1): divide the row by max (l1 norm) eps. -/
def normalizeL1 (v : List ℚ) : List ℚ := v.map (fun x => x / max (l1norm v) eps)

/-- One row of the ensemble update on line 116 of dagde.py:
Z[id] = momentum * Z[id] + (1 - momentum) * probs[id]. -/
def update_Z_row (m : ℚ) (zr pr : List ℚ) : List ℚ :=
  List.zipWith (fun a b => m * a + (1 - m) * b) zr pr

/-- torch.amax over a row (rows are nonempty in every use; 0 on []). -/
def maxList : List ℚ → ℚ
  | [] => 0
  | x :: xs => xs.foldl max x

/-- torch.amin over a row (rows are nonempty in every use; 0 on []). -/
def minList : List ℚ → ℚ
  | [] => 0
  | x :: xs => xs.foldl min x

/-- Per-sample confidence, amax(row) - amin(row) (lines 129 and 145). -/
def confidenceRow (row : List ℚ) : ℚ := maxList row - minList row

/-- Helper for argmax: index of the first maximal entry. -/
def argmaxAux : List ℚ → ℕ → ℕ → ℚ → ℕ
  | [], _, bi, _ => bi
  | x :: xs, i, bi, bv => if bv < x then argmaxAux xs (i + 1) i x else argmaxAux xs (i + 1) bi bv

/-- torch.argmax over a row: index of the first maximal entry. -/
def argmaxIdx : List ℚ → ℕ
  | [] => 0
  | x :: xs => argmaxAux xs 1 0 x

/-- Insert a value into a sorted list (helper for sorting). -/
def insertSorted (x : ℚ) : List ℚ → List ℚ
  | [] => [x]
  | y :: ys => if x ≤ y then x :: y :: ys else y :: insertSorted x ys

/-- Ascending insertion sort, used to model the order statistics taken
by torch.quantile. -/
def sortQ (xs : List ℚ) : List ℚ := xs.foldr insertSorted []

/-- torch.quantile with the default linear interpolation: for sorted
values v and position p = q * (n - 1), the result is
v[lo] + (p - lo) * (v[lo + 1] - v[lo]) with lo = floor p. -/
def quantileLinear (xs : List ℚ) (q : ℚ) : ℚ :=
  let v := sortQ xs
  let pos : ℚ := q * ((v.length : ℚ) - 1)
  let lo : ℕ := (⌊pos⌋).toNat
  let frac : ℚ := pos - (lo : ℚ)
  v.getD lo 0 + frac * (v.getD (lo + 1) (v.getD lo 0) - v.getD lo 0)

/-- _calc_alpha (lines 122-132): the confidence_q quantile of the
per-sample confidences of the UNNORMALIZED rows of Z gathered from the
loader of the current domain. -/
def calc_alpha (Z : List (List ℚ)) (confidence_q : ℚ) : ℚ :=
  quantileLinear (Z.map confidenceRow) confidence_q

/-- Number of samples of a batch kept by the mask confidence >= alpha. -/
def maskCount (probs : List (List ℚ)) (alpha : ℚ) : ℕ :=
  (probs.filter (fun r => alpha ≤ confidenceRow r)).length

/-- log_softmax of a row of student logits. -/
noncomputable def logSoftmaxRow (v : List ℝ) : List ℝ :=
  v.map (fun x => x - Real.log ((v.map Real.exp).sum))

/-- F.nll_loss(input, target, reduction = none) for one sample:
minus the entry of the log-probability row at the target index. -/
noncomputable def nllRow (logits : List ℝ) (t : ℕ) : ℝ := -((logSoftmaxRow logits).getD t 0)

/-- _pseudo_label_loss (lines 144-149): per-sample negative log
likelihood of the teacher label (argmax of the ensemble row) under
log_softmax of the student logits, zeroed where the mask is false, then
averaged with torch .mean() - that is, divided by the BATCH size. -/
noncomputable def pseudo_label_loss (logits : List (List ℝ)) (probs : List (List ℚ)) (alpha : ℚ) : ℝ :=
  let terms := List.zipWith
    (fun lg pr => nllRow lg (argmaxIdx pr) * (if alpha ≤ confidenceRow pr then (1 : ℝ) else 0))
    logits probs
  terms.sum / (terms.length : ℝ)

/-- The pseudo-label loss as section 4.4 of the spec words it: the SAME
masked sum of negative log likelihoods, but divided by the number of
masked-in samples instead of the batch size.  Kept only to be compared
with pseudo_label_loss, which is translated from the source. -/
noncomputable def pseudo_label_loss_masked_mean (logits : List (List ℝ)) (probs : List (List ℚ)) (alpha : ℚ) : ℝ :=
  let terms := List.zipWith
    (fun lg pr => nllRow lg (argmaxIdx pr) * (if alpha ≤ confidenceRow pr then (1 : ℝ) else 0))
    logits probs
  terms.sum / (maskCount probs alpha : ℝ)

/-- The per-epoch loss aggregation of _adapt_train_epoch (lines 27-41):
total_loss accumulates loss * mask.sum() per batch, total_num
accumulates mask.sum(), and the epoch returns total_loss / total_num.
A batch is a pair (student logits, ensemble z rows).  The final division
raises ZeroDivisionError when total_num = 0, modelled as none. -/
noncomputable def adapt_train_epoch_loss (batches : List (List (List ℝ) × List (List ℚ))) (alpha : ℚ) : Option ℝ :=
  let totalLoss := (batches.map (fun b => pseudo_label_loss b.1 b.2 alpha * (maskCount b.2 alpha : ℝ))).sum
  let totalNum := (batches.map (fun b => maskCount b.2 alpha)).sum
  if totalNum = 0 then none else some (totalLoss / (totalNum : ℝ))

/-- _calc_momentum value (line 137): momentum = exp(-beta * distance). -/
noncomputable def calc_momentum (beta dist : ℝ) : ℝ := Real.exp (-beta * dist)

/-- _calc_momentum (lines 134-140) including the distance lookup: the
distance is the entry of norm_dist_list at index domain_idx - 1 (the
adapter is only ever called with domain_idx >= 1). -/
noncomputable def calc_momentum_at (beta : ℝ) (norm_dist_list : List ℝ) (domain_idx : ℕ) : ℝ :=
  calc_momentum beta (norm_dist_list.getD (domain_idx - 1) 0)

/-- The external collaborators of one adapt call, for an abstract model
type M (spec section 6).  predict is inference of the CURRENT adapter
model over the touched samples (softmax rows); train runs the
pseudo-label training of a deep copy of the adapter model against the z
table and the threshold alpha, returning the candidate and its
validation score; oracle is the diagnostic pseudo-label accuracy, a
function of the z table only (lines 77-78); calcMom is the momentum
value exp(-beta * norm_dist_list[domain_idx - 1]) of the current
domain, a fixed scalar during one adapt call. -/
structure Collab (M : Type) where
  predict : M → List (List ℚ)
  train : M → List (List ℚ) → ℚ → M × ℚ
  oracle : List (List ℚ) → ℚ
  calcMom : ℚ

/-- The mutable state of one adapter instance that adapt touches. -/
structure AdaptState (M : Type) where
  model : M
  Z : List (List ℚ)
  z : List (List ℚ)
  momentum : ℚ
  plAccList : List ℚ
  momentumRecordList : List ℚ

/-- _update_Z (lines 105-117): refresh every touched row of Z with the
momentum-weighted combination of the current prediction, then refresh z
as the row-wise L1 normalization of Z. -/
def update_Z_step {M : Type} (c : Collab M) (st : AdaptState M) : AdaptState M :=
  let Znew := List.zipWith (update_Z_row st.momentum) st.Z (c.predict st.model)
  { st with Z := Znew, z := Znew.map normalizeL1 }

/-- _calc_momentum side effects (lines 138-140): overwrite
self.momentum and append the value to momentum_record_list. -/
def calc_momentum_step {M : Type} (c : Collab M) (st : AdaptState M) : AdaptState M :=
  { st with momentum := c.calcMom, momentumRecordList := st.momentumRecordList ++ [c.calcMom] }

/-- _adapt_train_eval (lines 83-101): update Z, compute alpha from the
updated Z, train a deep copy of the adapter model against z, append the
pseudo-label accuracy, recompute momentum; returns the candidate model
with its score, together with the new adapter state. -/
def adapt_train_eval {M : Type} (c : Collab M) (st : AdaptState M) (q : ℚ) : (M × ℚ) × AdaptState M :=
  let st1 := update_Z_step c st
  let alpha := calc_alpha st1.Z q
  let res := c.train st1.model st1.z alpha
  let st2 := { st1 with plAccList := st1.plAccList ++ [c.oracle st1.z] }
  (res, calc_momentum_step c st2)

/-- The candidate loop of adapt (lines 153-158): run _adapt_train_eval
once per confidence_q, collecting the (model, score) pairs in sweep
order. -/
def adapt_sweep {M : Type} (c : Collab M) (st : AdaptState M) : List ℚ → AdaptState M × List (M × ℚ)
  | [] => (st, [])
  | q :: qs =>
    let r1 := adapt_train_eval c st q
    let r2 := adapt_sweep c r1.2 qs
    (r2.1, r1.1 :: r2.2)

/-- One iteration of the selection loop of adapt (lines 162-165):
replace the incumbent when the score is strictly greater. -/
def select_step {M : Type} (best : Option M × WithBot ℚ) (cand : M × ℚ) : Option M × WithBot ℚ :=
  if best.2 < (cand.2 : WithBot ℚ) then (some cand.1, (cand.2 : WithBot ℚ)) else best

/-- The selection loop of adapt (lines 160-165), starting from
best_score = -inf and best_model = None. -/
def select_best {M : Type} (perf : List (M × ℚ)) : Option M :=
  (perf.foldl select_step ((none : Option M), (⊥ : WithBot ℚ))).1

/-- adapt (lines 151-167): sweep the candidates, then install the best
one as the live model.  When best_model stays None the source crashes
on deepcopy(None).to(device), modelled as none. -/
def adapt {M : Type} (c : Collab M) (st : AdaptState M) (qs : List ℚ) : Option (AdaptState M) :=
  match select_best (adapt_sweep c st qs).2 with
  | some m => some { (adapt_sweep c st qs).1 with model := m }
  | none => none

/-- Reference selector: the FIRST candidate attaining the maximal
score, in sweep order. -/
def first_max {M : Type} : List (M × ℚ) → Option (M × ℚ)
  | [] => none
  | x :: xs =>
    match first_max xs with
    | none => some x
    | some y => if x.2 < y.2 then some y else some x

/-- The ensemble-state projection of the candidate loop: what one
candidate iteration does to the pair (Z, momentum), with the
predictions of the fixed pre-domain model m0. -/
def z_update_only {M : Type} (c : Collab M) (m0 : M) (p : List (List ℚ) × ℚ) : List (List ℚ) × ℚ :=
  (List.zipWith (update_Z_row p.2) p.1 (c.predict m0), c.calcMom)

/-- Iterated ensemble projection: one z_update_only application per
candidate of the sweep. -/
def ensemble_after {M : Type} (c : Collab M) (m0 : M) (p : List (List ℚ) × ℚ) : List ℚ → List (List ℚ) × ℚ
  | [] => p
  | _ :: qs => ensemble_after c m0 (z_update_only c m0 p) qs

/-
Helper lemmas about the rational row operations.
-/

lemma sum_map_div (v : List ℚ) (s : ℚ) : (v.map (fun x => x / s)).sum = v.sum / s := by
  induction v with
  | nil => simp
  | cons a t ih => simp [ih, add_div]

lemma l1norm_eq_sum (v : List ℚ) (h : ∀ x ∈ v, 0 ≤ x) : l1norm v = v.sum := by
  induction v with
  | nil => rfl
  | cons a t ih =>
    have ha : |a| = a := abs_of_nonneg (h a (List.mem_cons_self a t))
    have ht := ih (fun x hx => h x (List.mem_cons_of_mem a hx))
    simp only [l1norm, List.map_cons, List.sum_cons] at *
    rw [ha, ht]

lemma update_Z_row_nonneg (m : ℚ) (hm0 : 0 ≤ m) (hm1 : m ≤ 1) :
    ∀ (zr pr : List ℚ), (∀ x ∈ zr, 0 ≤ x) → (∀ x ∈ pr, 0 ≤ x) →
    ∀ y ∈ update_Z_row m zr pr, 0 ≤ y := by
  intro zr
  induction zr with
  | nil => intro pr _ _ y hy; simp [update_Z_row] at hy
  | cons a t ih =>
    intro pr hz hp y hy
    cases pr with
    | nil => simp [update_Z_row] at hy
    | cons b s =>
      simp only [update_Z_row, List.zipWith_cons_cons, List.mem_cons] at hy
      rcases hy with hy | hy
      · have ha : 0 ≤ a := hz a (List.mem_cons_self a t)
        have hb : 0 ≤ b := hp b (List.mem_cons_self b s)
        have h1m : (0 : ℚ) ≤ 1 - m := by linarith
        rw [hy]
        exact add_nonneg (mul_nonneg hm0 ha) (mul_nonneg h1m hb)
      · exact ih s (fun x hx => hz x (List.mem_cons_of_mem a hx))
          (fun x hx => hp x (List.mem_cons_of_mem b hx)) y hy

lemma eps_pos : (0 : ℚ) < eps := by norm_num [eps]

/-- General normalization fact: a row with nonnegative entries whose sum
is at least eps normalizes to a row summing exactly to 1. -/
lemma normalizeL1_sum_one (v : List ℚ) (hv : ∀ x ∈ v, 0 ≤ x) (hbig : eps ≤ v.sum) :
    (normalizeL1 v).sum = 1 := by
  have h1 : l1norm v = v.sum := l1norm_eq_sum v hv
  have hpos : 0 < v.sum := lt_of_lt_of_le eps_pos hbig
  have hmax : max (l1norm v) eps = v.sum := by rw [h1]; exact max_eq_left hbig
  unfold normalizeL1
  rw [hmax, sum_map_div, div_self (ne_of_gt hpos)]

/-- C6: one iteration of the ensemble update, Z[id] = momentum * Z[id]
+ (1 - momentum) * probs[id] followed by z[id] = normalize_L1(Z[id]),
leaves a z row that sums exactly to 1 whenever the updated Z row is
non-zero beyond the floating tolerance eps of F.normalize: its entries
are nonnegative (momentum in [0, 1], nonnegative inputs) and its sum is
at least eps, so the L1 normalization divides by the exact row sum. -/
theorem updated_z_row_sums_to_one (m : ℚ) (zr pr : List ℚ)
    (hm0 : 0 ≤ m) (hm1 : m ≤ 1)
    (hz : ∀ x ∈ zr, 0 ≤ x) (hp : ∀ x ∈ pr, 0 ≤ x)
    (hbig : eps ≤ (update_Z_row m zr pr).sum) :
    (normalizeL1 (update_Z_row m zr pr)).sum = 1 :=
  normalizeL1_sum_one (update_Z_row m zr pr)
    (update_Z_row_nonneg m hm0 hm1 zr pr hz hp) hbig

/-- Witness for C6 at the concrete update of the zero row [0, 0] with
momentum 0 and prediction [1/2, 1/2]. -/
theorem updated_z_row_sums_to_one_witness :
    (normalizeL1 (update_Z_row 0 [0, 0] [1/2, 1/2])).sum = 1 :=
  updated_z_row_sums_to_one 0 [0, 0] [1/2, 1/2] (by norm_num) (by norm_num)
    (by intro x hx; simp at hx; simp [hx])
    (by intro x hx; simp at hx; simp [hx])
    (by norm_num [update_Z_row, eps])

/-- C10: the L1 normalization of an all-zero row of Z is a guarded
no-op: because F.normalize divides by max(l1 norm, eps) = eps rather
than by 0, the row stays all-zero, with no division error and no NaN. -/
theorem normalize_zero_row_noop (v : List ℚ) (h : ∀ x ∈ v, x = 0) : normalizeL1 v = v := by
  have h0 : l1norm v = 0 := by
    unfold l1norm
    refine List.sum_eq_zero ?_
    intro x hx
    rcases List.mem_map.mp hx with ⟨y, hy, rfl⟩
    rw [h y hy, abs_zero]
  unfold normalizeL1
  rw [h0]
  have hgen : ∀ (w : List ℚ), (∀ x ∈ w, x = 0) → (w.map (fun x => x / max 0 eps)) = w := by
    intro w
    induction w with
    | nil => intro _; rfl
    | cons a t ih =>
      intro hw
      have ha : a = 0 := hw a (List.mem_cons_self a t)
      have ht := ih (fun x hx => hw x (List.mem_cons_of_mem a hx))
      simp only [List.map_cons, ht, ha, zero_div, List.cons.injEq, and_true]
  exact hgen v h

/-- Witness for C10 at the concrete all-zero row [0, 0, 0]. -/
theorem normalize_zero_row_noop_witness : normalizeL1 [0, 0, 0] = [0, 0, 0] :=
  normalize_zero_row_noop [0, 0, 0] (by intro x hx; simpa using hx)

/-- C5: the threshold alpha of _calc_alpha is a quantile of confidences
of the UNNORMALIZED rows of Z (line 127), while the training mask of
_pseudo_label_loss compares confidences of the L1-NORMALIZED rows z
(lines 33 and 145) against that same alpha.  For the ensemble state
Z = [[10, 9], [1/2, 1/10]] with q = 1/2 (alpha = 7/10), sample 0 has
Z-row confidence 1 >= alpha but z-row confidence 1/19 < alpha, so the
set of samples the mask keeps is not the top (1 - q) fraction the
quantile was computed over. -/
theorem alpha_mask_normalization_mismatch :
    ∃ (Z : List (List ℚ)) (q : ℚ) (i : ℕ),
      calc_alpha Z q ≤ confidenceRow (Z.getD i []) ∧
      confidenceRow (normalizeL1 (Z.getD i [])) < calc_alpha Z q := by
  refine ⟨[[10, 9], [1/2, 1/10]], 1/2, 0, ?_, ?_⟩ <;>
    norm_num [calc_alpha, quantileLinear, sortQ, insertSorted, confidenceRow,
      maxList, minList, normalizeL1, l1norm, eps, abs, max_def]

/-- C8 counterexample: the claim quantifies over every NON-NEGATIVE
beta and distance, but at beta = 0 the momentum exp(-0 * d) = 1 is
constant in the distance (distances 0 and 1 give equal momentum), and
at distance 0 it is constant in beta; strict monotonicity fails. -/
theorem momentum_not_strict_at_zero :
    ¬ (calc_momentum 0 1 < calc_momentum 0 0) ∧ ¬ (calc_momentum 1 0 < calc_momentum 0 0) := by
  constructor <;> simp [calc_momentum]

/-- C8 amended: momentum = exp(-beta * distance) is strictly decreasing
in the distance for each fixed POSITIVE beta, strictly decreasing in
beta for each fixed POSITIVE distance, and equals 1 at distance 0 for
every beta. -/
theorem momentum_strict_monotone_pos :
    (∀ beta d1 d2 : ℝ, 0 < beta → d1 < d2 → calc_momentum beta d2 < calc_momentum beta d1)
    ∧ (∀ b1 b2 d : ℝ, 0 < d → b1 < b2 → calc_momentum b2 d < calc_momentum b1 d)
    ∧ (∀ beta : ℝ, calc_momentum beta 0 = 1) := by
  refine ⟨?_, ?_, ?_⟩
  · intro beta d1 d2 hb hd
    unfold calc_momentum
    apply Real.exp_lt_exp.mpr
    nlinarith
  · intro b1 b2 d hd hb
    unfold calc_momentum
    apply Real.exp_lt_exp.mpr
    nlinarith
  · intro beta
    simp [calc_momentum]

/-- Witness for the amended C8 at beta = 1 against distances 0 < 1, at
distance 1 against betas 1 < 2, and at distance 0 with beta = 5. -/
theorem momentum_strict_monotone_pos_witness :
    calc_momentum 1 1 < calc_momentum 1 0 ∧ calc_momentum 2 1 < calc_momentum 1 1
    ∧ calc_momentum 5 0 = 1 :=
  ⟨momentum_strict_monotone_pos.1 1 0 1 one_pos zero_lt_one,
   momentum_strict_monotone_pos.2.1 1 2 1 one_pos one_lt_two,
   momentum_strict_monotone_pos.2.2 5⟩

/-- C9: _calc_momentum computes exp(-beta * distance) where the
distance is the entry of the externally supplied distance list at index
domain_idx - 1 (the adapter always calls it with domain_idx >= 1); at
beta = 1 and distance 0 the momentum is 1, and at beta = 1 and
distance log 2 it is 1/2. -/
theorem calc_momentum_formula :
    (∀ (beta : ℝ) (l : List ℝ) (i : ℕ), 1 ≤ i → ∀ (h2 : i - 1 < l.length),
       calc_momentum_at beta l i = Real.exp (-beta * l.get ⟨i - 1, h2⟩))
    ∧ calc_momentum 1 0 = 1 ∧ calc_momentum 1 (Real.log 2) = 1/2 := by
  refine ⟨?_, ?_, ?_⟩
  · intro beta l i _ h2
    unfold calc_momentum_at calc_momentum
    rw [List.getD_eq_getElem l 0 h2, List.get_eq_getElem]
  · simp [calc_momentum]
  · unfold calc_momentum
    rw [neg_one_mul, Real.exp_neg, Real.exp_log (by norm_num : (0:ℝ) < 2)]
    norm_num

/-- Witness for C9 at beta = 1 with the one-entry distance list [0] and
domain_idx = 1, together with the two concrete momentum values. -/
theorem calc_momentum_formula_witness :
    calc_momentum_at 1 [0] 1 = Real.exp (-1 * ([0] : List ℝ).get ⟨0, by norm_num⟩)
    ∧ calc_momentum 1 0 = 1 ∧ calc_momentum 1 (Real.log 2) = 1/2 :=
  ⟨calc_momentum_formula.1 1 [0] 1 (le_refl 1) (by norm_num),
   calc_momentum_formula.2.1, calc_momentum_formula.2.2⟩

/-- C1: evaluation of _pseudo_label_loss at a two-sample batch in which
only the first sample is masked in.  The source divides the mask-zeroed
sum of negative log likelihoods by the BATCH size (torch .mean() over
the full batch), giving log 2 / 2 here, whereas the spec prescribes the
mean over the masked subset, log 2; the surrounding epoch loop
(lines 38-41) re-weights each batch loss by mask.sum() and divides by
the total mask count, which is only coherent for a masked mean, so the
.mean() in the source contradicts its own aggregation code. -/
theorem pseudo_label_loss_divides_by_batch_size :
    pseudo_label_loss [[0, 0], [0, 0]] [[1, 0], [1/2, 1/2]] (1/2) = Real.log 2 / 2
    ∧ pseudo_label_loss_masked_mean [[0, 0], [0, 0]] [[1, 0], [1/2, 1/2]] (1/2) = Real.log 2
    ∧ pseudo_label_loss [[0, 0], [0, 0]] [[1, 0], [1/2, 1/2]] (1/2)
        ≠ pseudo_label_loss_masked_mean [[0, 0], [0, 0]] [[1, 0], [1/2, 1/2]] (1/2) := by
  have h1 : pseudo_label_loss [[0, 0], [0, 0]] [[1, 0], [1/2, 1/2]] (1/2) = Real.log 2 / 2 := by
    norm_num [pseudo_label_loss, nllRow, logSoftmaxRow, argmaxIdx, argmaxAux,
      confidenceRow, maxList, minList, Real.exp_zero]
  have h2 : pseudo_label_loss_masked_mean [[0, 0], [0, 0]] [[1, 0], [1/2, 1/2]] (1/2)
      = Real.log 2 := by
    norm_num [pseudo_label_loss_masked_mean, nllRow, logSoftmaxRow, argmaxIdx, argmaxAux,
      confidenceRow, maxList, minList, maskCount, List.filter, Real.exp_zero]
  refine ⟨h1, h2, ?_⟩
  rw [h1, h2]
  have hlog : 0 < Real.log 2 := Real.log_pos one_lt_two
  intro hcontra
  linarith

/-- A batch every sample of which is masked out contributes zero to
each zipWith term of the loss. -/
lemma masked_terms_zero (alpha : ℚ) :
    ∀ (lgs : List (List ℝ)) (prs : List (List ℚ)),
    (∀ r ∈ prs, ¬ alpha ≤ confidenceRow r) →
    (List.zipWith
      (fun lg pr => nllRow lg (argmaxIdx pr) * (if alpha ≤ confidenceRow pr then (1 : ℝ) else 0))
      lgs prs).sum = 0 := by
  intro lgs
  induction lgs with
  | nil => intro prs _; simp
  | cons lg lt ih =>
    intro prs hpr
    cases prs with
    | nil => simp
    | cons pr pt =>
      have h0 : ¬ alpha ≤ confidenceRow pr := hpr pr (List.mem_cons_self pr pt)
      simp only [List.zipWith_cons_cons, List.sum_cons, if_neg h0, mul_zero, zero_add]
      exact ih pt (fun r hr => hpr r (List.mem_cons_of_mem pr hr))

lemma maskCount_eq_zero_iff (probs : List (List ℚ)) (alpha : ℚ) :
    maskCount probs alpha = 0 ↔ ∀ r ∈ probs, ¬ alpha ≤ confidenceRow r := by
  unfold maskCount
  rw [List.length_eq_zero, List.filter_eq_nil_iff]
  simp

/-- C2 counterexample: on a batch whose mask is entirely false the
source does NOT raise or return an explicit empty-batch error:
_pseudo_label_loss silently returns the ordinary value 0 (the .mean()
denominator is the batch size, never zero on a nonempty batch), and an
epoch containing such a batch next to a batch with a nonempty mask
completes with a defined loss (no ZeroDivisionError). -/
theorem pseudo_label_loss_empty_mask_silent_zero :
    pseudo_label_loss [[0, 0]] [[1/2, 1/2]] (1/2) = 0
    ∧ adapt_train_epoch_loss [([[0, 0]], [[1, 0]]), ([[0, 0]], [[1/2, 1/2]])] (1/2) ≠ none := by
  constructor
  · norm_num [pseudo_label_loss, nllRow, logSoftmaxRow, argmaxIdx, argmaxAux,
      confidenceRow, maxList, minList]
  · unfold adapt_train_epoch_loss
    norm_num [maskCount, confidenceRow, maxList, minList, List.filter]
    simp

/-- C2 amended: a fully masked-out batch makes _pseudo_label_loss
return 0 silently; a division error surfaces only at the epoch level of
_adapt_train_epoch, when EVERY batch of the epoch has an empty mask, so
that total_num = 0 in the final total_loss / total_num. -/
theorem pseudo_label_loss_empty_mask_behavior :
    (∀ (logits : List (List ℝ)) (probs : List (List ℚ)) (alpha : ℚ),
       maskCount probs alpha = 0 → pseudo_label_loss logits probs alpha = 0)
    ∧ (∀ (batches : List (List (List ℝ) × List (List ℚ))) (alpha : ℚ),
       (∀ b ∈ batches, maskCount b.2 alpha = 0) → adapt_train_epoch_loss batches alpha = none) := by
  constructor
  · intro logits probs alpha h
    have hall := (maskCount_eq_zero_iff probs alpha).mp h
    have hz := masked_terms_zero alpha logits probs hall
    simp only [pseudo_label_loss]
    rw [hz, zero_div]
  · intro batches alpha h
    have hz : (batches.map (fun b => maskCount b.2 alpha)).sum = 0 := by
      refine List.sum_eq_zero ?_
      intro x hx
      rcases List.mem_map.mp hx with ⟨b, hb, rfl⟩
      exact h b hb
    unfold adapt_train_epoch_loss
    simp [hz]

/-- Witness for the amended C2: a concrete fully masked-out batch gives
loss 0, and an epoch made only of that batch gives none. -/
theorem pseudo_label_loss_empty_mask_behavior_witness :
    pseudo_label_loss [[0, 0]] [[1/2, 1/2]] (1/2) = 0
    ∧ adapt_train_epoch_loss [([[0, 0]], [[1/2, 1/2]])] (1/2) = none :=
  ⟨pseudo_label_loss_empty_mask_behavior.1 [[0, 0]] [[1/2, 1/2]] (1/2)
     (by norm_num [maskCount, confidenceRow, maxList, minList, List.filter]),
   pseudo_label_loss_empty_mask_behavior.2 [([[0, 0]], [[1/2, 1/2]])] (1/2)
     (by
       intro b hb
       simp only [List.mem_singleton] at hb
       subst hb
       norm_num [maskCount, confidenceRow, maxList, minList, List.filter])⟩

/-
Step lemmas of the adapt state machine.
-/

lemma adapt_train_eval_model {M : Type} (c : Collab M) (st : AdaptState M) (q : ℚ) :
    ((adapt_train_eval c st q).2).model = st.model := rfl

lemma adapt_sweep_model {M : Type} (c : Collab M) :
    ∀ (qs : List ℚ) (st : AdaptState M), (adapt_sweep c st qs).1.model = st.model := by
  intro qs
  induction qs with
  | nil => intro st; rfl
  | cons q qs ih =>
    intro st
    simp only [adapt_sweep]
    rw [ih]
    exact adapt_train_eval_model c st q

lemma adapt_sweep_ensemble {M : Type} (c : Collab M) :
    ∀ (qs : List ℚ) (st : AdaptState M),
      ((adapt_sweep c st qs).1.Z, (adapt_sweep c st qs).1.momentum)
        = ensemble_after c st.model (st.Z, st.momentum) qs := by
  intro qs
  induction qs with
  | nil => intro st; rfl
  | cons q qs ih =>
    intro st
    simp only [adapt_sweep, ensemble_after]
    rw [ih]
    rfl

lemma adapt_sweep_records {M : Type} (c : Collab M) :
    ∀ (qs : List ℚ) (st : AdaptState M),
      (adapt_sweep c st qs).1.momentumRecordList
        = st.momentumRecordList ++ qs.map (fun _ => c.calcMom) := by
  intro qs
  induction qs with
  | nil => intro st; simp [adapt_sweep]
  | cons q qs ih =>
    intro st
    simp only [adapt_sweep]
    rw [ih]
    simp [adapt_train_eval, calc_momentum_step, update_Z_step]

lemma adapt_sweep_plAcc_length {M : Type} (c : Collab M) :
    ∀ (qs : List ℚ) (st : AdaptState M),
      (adapt_sweep c st qs).1.plAccList.length = st.plAccList.length + qs.length := by
  intro qs
  induction qs with
  | nil => intro st; simp [adapt_sweep]
  | cons q qs ih =>
    intro st
    simp only [adapt_sweep]
    rw [ih]
    simp [adapt_train_eval, calc_momentum_step, update_Z_step]
    omega

lemma adapt_sweep_perf_length {M : Type} (c : Collab M) :
    ∀ (qs : List ℚ) (st : AdaptState M), (adapt_sweep c st qs).2.length = qs.length := by
  intro qs
  induction qs with
  | nil => intro st; rfl
  | cons q qs ih =>
    intro st
    simp only [adapt_sweep, List.length_cons]
    rw [ih]

/-- C3 amended: during one adapt call the pre-domain model is shared by
all candidates (the state machine never changes the model field before
selection, so every candidate trains a deep copy of the same model),
but the ensemble state is NOT snapshotted: the pair (Z, momentum)
evolves by one z_update_only application PER CANDIDATE, so Z is mutated
exactly once per domain visit only when the sweep has a single
candidate. -/
theorem adapt_sweep_ensemble_evolution :
    (∀ (M : Type) (c : Collab M) (st : AdaptState M) (qs : List ℚ),
       (adapt_sweep c st qs).1.model = st.model
       ∧ ((adapt_sweep c st qs).1.Z, (adapt_sweep c st qs).1.momentum)
           = ensemble_after c st.model (st.Z, st.momentum) qs)
    ∧ (∀ (M : Type) (c : Collab M) (st : AdaptState M) (q : ℚ),
       (adapt_sweep c st [q]).1.Z = (update_Z_step c st).Z) :=
  ⟨fun _ c st qs => ⟨adapt_sweep_model c qs st, adapt_sweep_ensemble c qs st⟩,
   fun _ _ _ _ => rfl⟩

/-- A two-candidate sweep instance: the adapter enters the domain with
momentum 1/2 and one ensemble row [1, 0], while the fixed model
predicts [0, 1]. -/
def collabTwo : Collab ℚ where
  predict := fun _ => [[0, 1]]
  train := fun _ _ a => (a, a)
  oracle := fun _ => 0
  calcMom := 1/2

/-- Entry state for the two-candidate instance. -/
def stateTwo : AdaptState ℚ where
  model := 0
  Z := [[1, 0]]
  z := [[1, 0]]
  momentum := 1/2
  plAccList := []
  momentumRecordList := []

/-- C3 counterexample: in a two-candidate sweep the z table the second
candidate trains against, [[1/4, 3/4]], differs from the one the first
candidate trains against, [[1/2, 1/2]] (the candidates share the
mutated ensemble state, it is not a common snapshot), and after the
sweep Z has been updated twice, not once. -/
theorem ensemble_state_shared_across_candidates :
    (update_Z_step collabTwo stateTwo).z
      ≠ (update_Z_step collabTwo ((adapt_train_eval collabTwo stateTwo (1/10)).2)).z
    ∧ (adapt_sweep collabTwo stateTwo [1/10, 2/10]).1.Z
      ≠ (update_Z_step collabTwo stateTwo).Z := by
  constructor <;>
    norm_num [update_Z_step, adapt_train_eval, adapt_sweep, calc_momentum_step,
      update_Z_row, normalizeL1, l1norm, eps, collabTwo, stateTwo, calc_alpha,
      quantileLinear, sortQ, insertSorted, confidenceRow, maxList, minList, abs, max_def]

/-- C4 amended: one adapt call with candidate list qs appends one
momentum record and one pseudo-label accuracy PER CANDIDATE (the
scheduler _calc_momentum runs at the end of every _adapt_train_eval),
so the histories grow by the length of the sweep, which is one entry
per domain exactly when the sweep has a single candidate (as in the
shipped driver, confidence_q_list = [0.1]). -/
theorem adapt_sweep_appends_once_per_candidate :
    ∀ (M : Type) (c : Collab M) (st : AdaptState M) (qs : List ℚ),
      (adapt_sweep c st qs).1.momentumRecordList
        = st.momentumRecordList ++ qs.map (fun _ => c.calcMom)
      ∧ (adapt_sweep c st qs).1.plAccList.length = st.plAccList.length + qs.length :=
  fun _ c st qs => ⟨adapt_sweep_records c qs st, adapt_sweep_plAcc_length c qs st⟩

/-- C4 counterexample: one domain visit processed with a two-candidate
sweep appends TWO entries to momentum_record_list and pl_acc_list (one
per candidate), not one entry per domain. -/
theorem momentum_record_per_candidate_not_per_domain :
    (adapt_sweep collabTwo stateTwo [1/10, 2/10]).1.momentumRecordList.length ≠ 1
    ∧ (adapt_sweep collabTwo stateTwo [1/10, 2/10]).1.plAccList.length ≠ 1 := by
  constructor <;>
    norm_num [adapt_sweep, adapt_train_eval, update_Z_step, calc_momentum_step,
      collabTwo, stateTwo]

/-
Selection lemmas: the strict-greater fold of adapt picks the first
candidate attaining the maximal score.
-/

lemma select_foldl_spec {M : Type} :
    ∀ (l : List (M × ℚ)) (acc : Option M × WithBot ℚ),
      l.foldl select_step acc
        = match first_max l with
          | none => acc
          | some p => if acc.2 < (p.2 : WithBot ℚ) then (some p.1, (p.2 : WithBot ℚ)) else acc := by
  intro l
  induction l with
  | nil => intro acc; rfl
  | cons x xs ih =>
    intro acc
    rw [List.foldl_cons, ih]
    cases hx : first_max xs with
    | none =>
      simp only [first_max, hx]
      rfl
    | some y =>
      simp only [first_max, hx]
      by_cases h1 : x.2 < y.2
      · rw [if_pos h1]
        by_cases h2 : acc.2 < (x.2 : WithBot ℚ)
        · have hx2y : (x.2 : WithBot ℚ) < (y.2 : WithBot ℚ) := WithBot.coe_lt_coe.mpr h1
          have hacc : acc.2 < (y.2 : WithBot ℚ) := lt_trans h2 hx2y
          simp [select_step, h2, hx2y, hacc]
        · simp [select_step, h2]
      · rw [if_neg h1]
        have hyx : (y.2 : WithBot ℚ) ≤ (x.2 : WithBot ℚ) := WithBot.coe_le_coe.mpr (not_lt.mp h1)
        by_cases h2 : acc.2 < (x.2 : WithBot ℚ)
        · have hny : ¬ ((x.2 : WithBot ℚ) < (y.2 : WithBot ℚ)) := not_lt.mpr hyx
          simp [select_step, h2, hny]
        · have hax : (x.2 : WithBot ℚ) ≤ acc.2 := not_lt.mp h2
          have hnacc : ¬ (acc.2 < (y.2 : WithBot ℚ)) := not_lt.mpr (le_trans hyx hax)
          simp [select_step, h2, hnacc]

lemma select_best_eq_first_max {M : Type} (l : List (M × ℚ)) :
    select_best l = (first_max l).map Prod.fst := by
  unfold select_best
  rw [select_foldl_spec]
  cases h : first_max l with
  | none => rfl
  | some p => simp [WithBot.bot_lt_coe]

lemma first_max_isSome {M : Type} (l : List (M × ℚ)) (h : l ≠ []) :
    ∃ p, first_max l = some p := by
  cases l with
  | nil => exact absurd rfl h
  | cons x xs =>
    cases hx : first_max xs with
    | none => exact ⟨x, by simp [first_max, hx]⟩
    | some y =>
      by_cases h1 : x.2 < y.2
      · exact ⟨y, by simp [first_max, hx, h1]⟩
      · exact ⟨x, by simp [first_max, hx, h1]⟩

/-- C7: after a nonempty hyperparameter sweep, adapt deterministically
installs a candidate model: the one of the FIRST candidate (in sweep
iteration order) attaining the maximal validation score - the strict >
comparison starting from best_score = negative infinity makes the
first-seen candidate win ties, and even when all candidates share one
(worst) score the first candidate is still picked, never a null
model. -/
theorem adapt_selects_first_best (M : Type) (c : Collab M) (st : AdaptState M) (qs : List ℚ)
    (h : qs ≠ []) :
    ∃ p, first_max (adapt_sweep c st qs).2 = some p
      ∧ adapt c st qs = some { (adapt_sweep c st qs).1 with model := p.1 } := by
  have hlen : (adapt_sweep c st qs).2.length = qs.length := adapt_sweep_perf_length c qs st
  have hne : (adapt_sweep c st qs).2 ≠ [] := by
    intro hnil
    rw [hnil] at hlen
    exact h (List.length_eq_zero.mp hlen.symm)
  obtain ⟨p, hp⟩ := first_max_isSome _ hne
  refine ⟨p, hp, ?_⟩
  unfold adapt
  rw [select_best_eq_first_max, hp]
  rfl

/-- Sweep instance with two candidates scoring 0.7 and 0.9: the train
collaborator scores each candidate by its alpha, and the ensemble rows
are chosen so that the swept quantiles 0.7 and 0.9 produce exactly
those alphas. -/
def collabSel : Collab ℚ where
  predict := fun _ => [[1, 0], [1/2, 1/2]]
  train := fun _ _ a => (a, a)
  oracle := fun _ => 0
  calcMom := 0

/-- Entry state for the selection instance. -/
def stateSel : AdaptState ℚ where
  model := 0
  Z := [[1, 0], [1/2, 1/2]]
  z := [[1, 0], [1/2, 1/2]]
  momentum := 0
  plAccList := []
  momentumRecordList := []

/-- Witness for C7: at the two-candidate sweep with scores [0.7, 0.9],
adapt succeeds and the SECOND candidate model (the one scoring 0.9)
becomes the live model. -/
theorem adapt_selects_first_best_witness :
    (∃ p, first_max (adapt_sweep collabSel stateSel [7/10, 9/10]).2 = some p
       ∧ adapt collabSel stateSel [7/10, 9/10]
           = some { (adapt_sweep collabSel stateSel [7/10, 9/10]).1 with model := p.1 })
    ∧ (adapt collabSel stateSel [7/10, 9/10]).map (fun s => s.model) = some (9/10) := by
  refine ⟨adapt_selects_first_best ℚ collabSel stateSel [7/10, 9/10] (by simp), ?_⟩
  norm_num [adapt, adapt_sweep, adapt_train_eval, update_Z_step, calc_momentum_step,
    select_best, select_step, collabSel, stateSel, calc_alpha, quantileLinear,
    sortQ, insertSorted, confidenceRow, maxList, minList, update_Z_row, normalizeL1,
    l1norm, eps, abs, max_def, WithBot.bot_lt_coe, WithBot.coe_lt_coe]
